import Mathlib

/-!
Shallow embedding of `pyregex-utils/src/regexutils.py`.

The regex engine (Python's `re` module) is an external collaborator: it is
modelled as an oracle `Engine` that, given a pattern source string, a subject
(a list of characters, Python strings being sequences of code points) and a
flag bitset, returns the ordered list of matches `re.finditer` would produce.
Every function of the module is translated against that oracle; a concrete
oracle `demoEngine` tabulates the engine's documented behaviour on the
handful of concrete pattern/subject pairs the scenarios use.

Integers from Python are arbitrary-precision, so caller-supplied range
endpoints embed as `Int`; match offsets produced by the engine are string
indices, hence `Nat`, coerced to `Int` where the code compares them with
ranges.
-/

namespace Regexutils

/-- A regex match object: its span `[start, stop)` and its group-0 text
(`match.span()` and `match.group(0)` in the source). -/
structure Match where
  start : Nat
  stop : Nat
  text : List Char
deriving DecidableEq

/-- A Python runtime value that the find operations may append to their
result list: either a full match object or a plain string.  The source is
dynamically typed; `find_with_excluded_ranges` appends `match.group(0)`
(a string) where its siblings append the match object itself. -/
inductive RVal where
  | matchV : Match → RVal
  | strV : List Char → RVal
deriving DecidableEq

/-- The regex engine oracle: pattern source, subject, flags ↦ the ordered
match list of `re.finditer(pattern, subject, flags)`. -/
abbrev Engine := String → List Char → Nat → List Match

/-- Embeds `_do_ranges_overlap` (regexutils.py line 34):
`return start1 <= end2 - 1 and start2 <= end1 - 1`. -/
def _do_ranges_overlap (start1 end1 start2 end2 : Int) : Bool :=
  start1 ≤ end2 - 1 && start2 ≤ end1 - 1

/-- The scan over caller-supplied `(start, end)` ranges done by the range
functions: test the ranges in list order, first overlap short-circuits
(`List.any` has exactly that behaviour). -/
def overlapsAnyR (ranges : List (Int × Int)) (a b : Nat) : Bool :=
  ranges.any fun r => _do_ranges_overlap (a : Int) (b : Int) r.1 r.2

/-- Python slicing `s[a:b]` on a string of code points. -/
def slice (s : List Char) (a b : Nat) : List Char :=
  (s.take b).drop a

/-- The single-loop skeleton shared verbatim by `find_within_ranges`,
`find_with_excluded_ranges` and `find_with_excluded_patterns`: iterate over
the engine's matches with a `found` counter, `if count and found >= count:
break`, and on a kept match append `emit match` and increment `found`.
Python's `if count` is integer truthiness, i.e. `count ≠ 0`. -/
def scanBudget {α : Type} (keep : Match → Bool) (emit : Match → α)
    (count : Int) : Nat → List Match → List α
  | _, [] => []
  | found, m :: rest =>
    if count ≠ 0 ∧ count ≤ (found : Int) then []
    else if keep m then emit m :: scanBudget keep emit count (found + 1) rest
    else scanBudget keep emit count found rest

/-- Embeds `find_within_ranges` (lines 76-91): keep an engine match iff its
span overlaps some included range; append the match object itself. -/
def find_within_ranges (engine : Engine) (string : List Char) (pattern : String)
    (included_ranges : List (Int × Int)) (count : Int) (flags : Nat) : List Match :=
  scanBudget (fun m => overlapsAnyR included_ranges m.start m.stop) (fun m => m)
    count 0 (engine pattern string flags)

/-- Embeds `find_with_excluded_ranges` (lines 183-202): keep an engine match
iff its span overlaps no excluded range; the loop appends `match.group(0)`,
a string, not the match object. -/
def find_with_excluded_ranges (engine : Engine) (string : List Char) (pattern : String)
    (excluded_ranges : List (Int × Int)) (count : Int) (flags : Nat) : List RVal :=
  scanBudget (fun m => !(overlapsAnyR excluded_ranges m.start m.stop))
    (fun m => RVal.strV m.text) count 0 (engine pattern string flags)

/-- The innermost loop of `find_within_patterns` (lines 250-254): walk the
target pattern's matches inside one outer span, `if count and found >=
count: break`, else append and count. Returns the updated counter and the
appended matches. -/
def fwpInner (count : Int) : Nat → List Match → Nat × List Match
  | found, [] => (found, [])
  | found, m :: rest =>
    if count ≠ 0 ∧ count ≤ (found : Int) then (found, [])
    else
      let r := fwpInner count (found + 1) rest
      (r.1, m :: r.2)

/-- The two outer loops of `find_within_patterns` share this shape: walk a
list, let `step` process each element threading the `found` counter, and
concatenate whatever each step appended. -/
def fwpGroups {β : Type} (step : Nat → β → Nat × List Match) :
    Nat → List β → Nat × List Match
  | found, [] => (found, [])
  | found, b :: rest =>
    let r1 := step found b
    let r2 := fwpGroups step r1.1 rest
    (r2.1, r1.2 ++ r2.2)

/-- Embeds `find_within_patterns` (lines 244-256): for each inclusion
pattern in list order, for each of its matches in engine order, re-run the
target pattern on the substring `string[start:end]` of that outer span and
collect the resulting matches (whose offsets are relative to the substring),
under the shared budget counter. -/
def find_within_patterns (engine : Engine) (string : List Char) (pattern : String)
    (included_patterns : List String) (count : Int) (flags : Nat) : List Match :=
  (fwpGroups
    (fun found inc_pattern =>
      fwpGroups
        (fun found2 inc_match =>
          fwpInner count found2
            (engine pattern (slice string inc_match.start inc_match.stop) flags))
        found (engine inc_pattern string flags))
    0 included_patterns).2

/-- Embeds `find_strings_within_patterns` (lines 299-307): the group-0
projection of `find_within_patterns`. -/
def find_strings_within_patterns (engine : Engine) (string : List Char) (pattern : String)
    (included_patterns : List String) (count : Int) (flags : Nat) : List (List Char) :=
  (find_within_patterns engine string pattern included_patterns count flags).map Match.text

/-- The pre-pass of `find_with_excluded_patterns` (lines 352-355): the flat
list of every exclusion pattern's match spans over the full subject, in
pattern order then engine order, not deduplicated. -/
def excludedSpans (engine : Engine) (string : List Char)
    (excluded_patterns : List String) (flags : Nat) : List (Nat × Nat) :=
  excluded_patterns.flatMap fun ep => (engine ep string flags).map fun m => (m.start, m.stop)

/-- Overlap of a match span against the collected exclusion spans. -/
def overlapsAnySpans (spans : List (Nat × Nat)) (a b : Nat) : Bool :=
  spans.any fun r => _do_ranges_overlap (a : Int) (b : Int) (r.1 : Int) (r.2 : Int)

/-- Embeds `find_with_excluded_patterns` (lines 349-373): keep an engine
match iff its span overlaps none of the collected exclusion spans; appends
the match object. -/
def find_with_excluded_patterns (engine : Engine) (string : List Char) (pattern : String)
    (excluded_patterns : List String) (count : Int) (flags : Nat) : List Match :=
  scanBudget
    (fun m => !(overlapsAnySpans (excludedSpans engine string excluded_patterns flags)
      m.start m.stop))
    (fun m => m) count 0 (engine pattern string flags)

/-- How `re.sub` with a callable replacement builds its output: the text
between the previous position and the match is copied verbatim, the
callback's result replaces the matched span, and after the last processed
match the remainder of the subject is copied verbatim. -/
def subRender (s : List Char) (f : Match → List Char) : Nat → List Match → List Char
  | pos, [] => s.drop pos
  | pos, m :: rest => slice s pos m.start ++ f m ++ subRender s f m.stop rest

/-- CPython's `re.sub(pattern, f, string, count)`: with `count == 0` every
match is processed; otherwise at most `count` matches are processed (a
negative count processes none) and the rest of the subject is passed through
unchanged. -/
def reSub (s : List Char) (ms : List Match) (f : Match → List Char) (count : Int) : List Char :=
  subRender s f 0 (if count = 0 then ms else ms.take count.toNat)

/-- Embeds `replace_within_ranges` (lines 470-477): `re.sub` with the pure
callback `replacement_function` (replacement if the span overlaps some
included range, else `match.group(0)`), with `count` forwarded to `re.sub`. -/
def replace_within_ranges (engine : Engine) (string : List Char) (pattern : String)
    (replacement : List Char) (included_ranges : List (Int × Int))
    (count : Int) (flags : Nat) : List Char :=
  reSub string (engine pattern string flags)
    (fun m => if overlapsAnyR included_ranges m.start m.stop then replacement else m.text)
    count

/-- Variant of `subRender` for a stateful callback, threading the callback's
captured state (the `nonlocal replaced` counter) through the matches. -/
def subRenderSt (s : List Char) (f : Nat → Match → Nat × List Char) :
    Nat → Nat → List Match → List Char
  | pos, _, [] => s.drop pos
  | pos, st, m :: rest =>
    let r := f st m
    slice s pos m.start ++ r.2 ++ subRenderSt s f m.stop r.1 rest

/-- The closure `replacement_function` of `replace_with_excluded_ranges`
(lines 524-536): give back the original text once `count and replaced >=
count`, or when the span overlaps an excluded range; otherwise increment
`replaced` and give back the replacement. -/
def excludedReplFun (replacement : List Char) (excluded_ranges : List (Int × Int))
    (count : Int) (replaced : Nat) (m : Match) : Nat × List Char :=
  if count ≠ 0 ∧ count ≤ (replaced : Int) then (replaced, m.text)
  else if overlapsAnyR excluded_ranges m.start m.stop then (replaced, m.text)
  else (replaced + 1, replacement)

/-- Embeds `replace_with_excluded_ranges` (lines 522-538): `re.sub` with the
stateful callback and no count forwarded (every match is processed; the
budget lives in the callback's `replaced` counter). -/
def replace_with_excluded_ranges (engine : Engine) (string : List Char) (pattern : String)
    (replacement : List Char) (excluded_ranges : List (Int × Int))
    (count : Int) (flags : Nat) : List Char :=
  subRenderSt string (excludedReplFun replacement excluded_ranges count) 0 0
    (engine pattern string flags)

/-- Well-formedness of an engine's match list, from position `pos` on:
matches are in order, non-overlapping, within the subject, and each carries
exactly the subject text of its span — the guarantees `re.finditer` gives. -/
def validFrom (s : List Char) : Nat → List Match → Bool
  | _, [] => true
  | pos, m :: rest =>
    decide (pos ≤ m.start) && decide (m.start ≤ m.stop) && decide (m.stop ≤ s.length) &&
    decide (m.text = slice s m.start m.stop) && validFrom s m.stop rest

/-- Well-formedness of a whole engine match list. -/
def validMatches (s : List Char) (ms : List Match) : Bool :=
  validFrom s 0 ms

/-- Modelled from the spec (§4.4): the subject with exactly the qualifying
matches replaced — between-match text and non-qualifying match spans are
copied verbatim out of the subject itself, qualifying spans become the
replacement text. Comparand for the replace operations. -/
def replaceQualGo (s : List Char) (q : Match → Bool) (repl : List Char) :
    Nat → List Match → List Char
  | pos, [] => s.drop pos
  | pos, m :: rest =>
    slice s pos m.start ++ (if q m then repl else slice s m.start m.stop) ++
      replaceQualGo s q repl m.stop rest

/-- Modelled from the spec (§4.4), entry point of `replaceQualGo`. -/
def replaceQualifying (s : List Char) (ms : List Match) (q : Match → Bool)
    (repl : List Char) : List Char :=
  replaceQualGo s q repl 0 ms

/-- The matches of the engine's list whose span overlaps some range: what
"within" semantics qualifies. -/
def withinKept (ms : List Match) (ranges : List (Int × Int)) : List Match :=
  ms.filter fun m => overlapsAnyR ranges m.start m.stop

/-- The matches of the engine's list whose span overlaps no range: what
"excluded" semantics qualifies. -/
def excludedKept (ms : List Match) (ranges : List (Int × Int)) : List Match :=
  ms.filter fun m => !(overlapsAnyR ranges m.start m.stop)

/-- The matches of the engine's list that qualify for
`find_with_excluded_patterns`: span overlaps none of the collected
exclusion spans. -/
def excludedPatternsKept (engine : Engine) (string : List Char) (pattern : String)
    (excluded_patterns : List String) (flags : Nat) : List Match :=
  (engine pattern string flags).filter fun m =>
    !(overlapsAnySpans (excludedSpans engine string excluded_patterns flags) m.start m.stop)

/-- The full nested match list of `find_within_patterns` without a budget:
for each inclusion pattern in order, for each of its engine matches in
order, the target pattern's matches over that outer span's substring. -/
def withinPatternsAll (engine : Engine) (string : List Char) (pattern : String)
    (included_patterns : List String) (flags : Nat) : List Match :=
  included_patterns.flatMap fun ip =>
    (engine ip string flags).flatMap fun om =>
      engine pattern (slice string om.start om.stop) flags

/-- Helper for tabulating engine matches. -/
def mkMatch (a b : Nat) (t : String) : Match :=
  ⟨a, b, t.data⟩

/-- A concrete engine oracle: `re.finditer`'s documented output on the
pattern/subject pairs the scenarios and witnesses use, tabulated by hand
from the semantics of Python regular expressions. -/
def demoEngine : Engine := fun pat s _flags =>
  if pat = "foo" ∧ s = "foo baz foo".data then
    [mkMatch 0 3 "foo", mkMatch 8 11 "foo"]
  else if pat = "\\w+" ∧ s = "hello world".data then
    [mkMatch 0 5 "hello", mkMatch 6 11 "world"]
  else if pat = "\\w+" ∧ s = "foo bar (foo) [baz]".data then
    [mkMatch 0 3 "foo", mkMatch 4 7 "bar", mkMatch 9 12 "foo", mkMatch 15 18 "baz"]
  else if pat = "\\(.*?\\)" ∧ s = "foo bar (foo) [baz]".data then
    [mkMatch 8 13 "(foo)"]
  else if pat = "\\[.*?\\]" ∧ s = "foo bar (foo) [baz]".data then
    [mkMatch 14 19 "[baz]"]
  else if pat = "\\w+" ∧ s = "(foo)".data then
    [mkMatch 1 4 "foo"]
  else if pat = "\\w+" ∧ s = "[baz]".data then
    [mkMatch 1 4 "baz"]
  else if pat = "\\b\\w\x7b3\x7d\\b" ∧ s = "The quick brown fox jumps over the lazy dog".data then
    [mkMatch 0 3 "The", mkMatch 16 19 "fox", mkMatch 31 34 "the", mkMatch 40 43 "dog"]
  else
    []

end Regexutils

namespace Regexutils

/-- With no budget (`count = 0`) the scan loop is a plain filter-map. -/
theorem scanBudget_zero {α : Type} (keep : Match → Bool) (emit : Match → α) :
    ∀ (ms : List Match) (found : Nat),
      scanBudget keep emit 0 found ms = (ms.filter keep).map emit := by
  intro ms
  induction ms with
  | nil => intro found; rfl
  | cons m rest ih =>
    intro found
    simp only [scanBudget, List.filter_cons]
    rw [if_neg (by simp)]
    by_cases hk : keep m
    · simp [hk, ih]
    · simp [hk, ih]

/-- With a nonzero budget the scan loop keeps the first `count.toNat - found`
qualifying matches (none when the budget is negative or spent). -/
theorem scanBudget_ne {α : Type} (keep : Match → Bool) (emit : Match → α)
    (count : Int) (hc : count ≠ 0) :
    ∀ (ms : List Match) (found : Nat),
      scanBudget keep emit count found ms
        = ((ms.filter keep).map emit).take (count.toNat - found) := by
  intro ms
  induction ms with
  | nil => intro found; simp [scanBudget]
  | cons m rest ih =>
    intro found
    simp only [scanBudget, List.filter_cons]
    by_cases hb : count ≤ (found : Int)
    · rw [if_pos ⟨hc, hb⟩]
      have h0 : count.toNat - found = 0 := by omega
      rw [h0, List.take_zero]
    · rw [if_neg (by tauto)]
      have h1 : found < count.toNat := by omega
      have h2 : count.toNat - found = (count.toNat - (found + 1)) + 1 := by omega
      by_cases hk : keep m
      · simp only [hk, if_pos, List.map_cons, h2, List.take_succ_cons, ih]
      · simp only [hk, ih, if_neg, Bool.false_eq_true, not_false_iff]

/-- The inner loop of `find_within_patterns` with no budget appends its whole
match list and advances the counter by its length. -/
theorem fwpInner_zero : ∀ (ms : List Match) (found : Nat),
    fwpInner 0 found ms = (found + ms.length, ms) := by
  intro ms
  induction ms with
  | nil => intro found; rfl
  | cons m rest ih =>
    intro found
    simp only [fwpInner]
    rw [if_neg (by simp)]
    simp [ih]
    omega

/-- The inner loop of `find_within_patterns` with a nonzero budget appends a
prefix of its match list: the `count.toNat - found` next matches. -/
theorem fwpInner_ne (count : Int) (hc : count ≠ 0) :
    ∀ (ms : List Match) (found : Nat),
      fwpInner count found ms
        = (found + (ms.take (count.toNat - found)).length, ms.take (count.toNat - found)) := by
  intro ms
  induction ms with
  | nil => intro found; simp [fwpInner]
  | cons m rest ih =>
    intro found
    simp only [fwpInner]
    by_cases hb : count ≤ (found : Int)
    · rw [if_pos ⟨hc, hb⟩]
      have h0 : count.toNat - found = 0 := by omega
      rw [h0]
      simp
    · rw [if_neg (by tauto)]
      have h2 : count.toNat - found = (count.toNat - (found + 1)) + 1 := by omega
      rw [h2, List.take_succ_cons, ih (found + 1)]
      simp only [List.length_cons, Prod.mk.injEq]
      exact ⟨by omega, trivial⟩

/-- Group accumulation, no-budget case: when every step appends its group's
whole content, the loop appends the concatenation of all contents. -/
theorem fwpGroups_zero {β : Type} (step : Nat → β → Nat × List Match)
    (content : β → List Match)
    (hstep : ∀ (f : Nat) (b : β), step f b = (f + (content b).length, content b)) :
    ∀ (l : List β) (found : Nat),
      fwpGroups step found l = (found + (l.flatMap content).length, l.flatMap content) := by
  intro l
  induction l with
  | nil => intro found; simp [fwpGroups]
  | cons b rest ih =>
    intro found
    simp only [fwpGroups, hstep, ih, List.flatMap_cons, List.length_append, Prod.mk.injEq]
    exact ⟨by omega, trivial⟩

/-- Group accumulation, budget case: when every step appends the next
`c - found` elements of its group's content, the loop appends the next
`c - found` elements of the concatenation. -/
theorem fwpGroups_ne {β : Type} (c : Nat) (step : Nat → β → Nat × List Match)
    (content : β → List Match)
    (hstep : ∀ (f : Nat) (b : β),
      step f b = (f + ((content b).take (c - f)).length, (content b).take (c - f))) :
    ∀ (l : List β) (found : Nat),
      fwpGroups step found l
        = (found + ((l.flatMap content).take (c - found)).length,
           (l.flatMap content).take (c - found)) := by
  intro l
  induction l with
  | nil => intro found; simp [fwpGroups]
  | cons b rest ih =>
    intro found
    have harith : c - (found + ((content b).take (c - found)).length)
        = (c - found) - (content b).length := by
      rw [List.length_take]; omega
    simp only [fwpGroups, hstep, ih, List.flatMap_cons, harith,
      List.take_append_eq_append_take, List.length_append, Prod.mk.injEq]
    exact ⟨by omega, trivial⟩

/-- Splitting a drop at a later index: the slice `s[a:b]` followed by the
rest of the subject from `b` is the rest of the subject from `a`. -/
theorem slice_append_drop (s : List Char) (a b : Nat) (h1 : a ≤ b) (h2 : b ≤ s.length) :
    slice s a b ++ s.drop b = s.drop a := by
  have h3 : s.drop a = (s.take b).drop a ++ (s.drop b).drop (a - (s.take b).length) := by
    conv_lhs => rw [← List.take_append_drop b s]
    rw [List.drop_append_eq_append_drop]
  rw [h3, List.length_take, Nat.min_eq_left h2, Nat.sub_eq_zero_of_le h1, List.drop_zero]
  rfl

/-- On a well-formed match list, `re.sub` with the callback "replacement if
`q`, else the original matched text" renders exactly the spec's output: the
subject with the `q`-matches replaced and everything else verbatim. -/
theorem subRender_eq_replaceQualGo (s : List Char) (q : Match → Bool) (repl : List Char) :
    ∀ (ms : List Match) (pos : Nat), validFrom s pos ms = true →
      subRender s (fun m => if q m then repl else m.text) pos ms
        = replaceQualGo s q repl pos ms := by
  intro ms
  induction ms with
  | nil => intro pos _; rfl
  | cons m rest ih =>
    intro pos h
    simp only [validFrom, Bool.and_eq_true, decide_eq_true_eq] at h
    obtain ⟨⟨⟨⟨_, _⟩, _⟩, htext⟩, hrest⟩ := h
    simp only [subRender, replaceQualGo, htext, ih m.stop hrest]

/-- With no budget, the stateful callback of `replace_with_excluded_ranges`
renders the spec's output for the qualifier "overlaps no excluded range",
whatever the counter's starting value. -/
theorem subRenderSt_zero_eq (s repl : List Char) (ranges : List (Int × Int)) :
    ∀ (ms : List Match) (pos st : Nat), validFrom s pos ms = true →
      subRenderSt s (excludedReplFun repl ranges 0) pos st ms
        = replaceQualGo s (fun m => !(overlapsAnyR ranges m.start m.stop)) repl pos ms := by
  intro ms
  induction ms with
  | nil => intro pos st _; rfl
  | cons m rest ih =>
    intro pos st h
    simp only [validFrom, Bool.and_eq_true, decide_eq_true_eq] at h
    obtain ⟨⟨⟨⟨_, _⟩, _⟩, htext⟩, hrest⟩ := h
    by_cases hov : overlapsAnyR ranges m.start m.stop
    · simp [subRenderSt, replaceQualGo, excludedReplFun, hov, htext, ih m.stop st hrest]
    · simp [subRenderSt, replaceQualGo, excludedReplFun, hov, ih m.stop (st + 1) hrest]

/-- With a negative budget, the callback of `replace_with_excluded_ranges`
is blocked on every match (`count and replaced >= count` is already true at
`replaced = 0`), so on a well-formed match list the subject is rendered back
unchanged from `pos` on. -/
theorem subRenderSt_neg (s repl : List Char) (ranges : List (Int × Int))
    (count : Int) (hc : count < 0) :
    ∀ (ms : List Match) (pos st : Nat), validFrom s pos ms = true →
      subRenderSt s (excludedReplFun repl ranges count) pos st ms = s.drop pos := by
  intro ms
  induction ms with
  | nil => intro pos st _; rfl
  | cons m rest ih =>
    intro pos st h
    simp only [validFrom, Bool.and_eq_true, decide_eq_true_eq] at h
    obtain ⟨⟨⟨⟨hpos, hse⟩, hlen⟩, htext⟩, hrest⟩ := h
    have hblock : excludedReplFun repl ranges count st m = (st, m.text) := by
      unfold excludedReplFun
      rw [if_pos ⟨by omega, by omega⟩]
    simp only [subRenderSt, hblock, htext, ih m.stop st hrest]
    rw [List.append_assoc, slice_append_drop s m.start m.stop hse hlen,
      slice_append_drop s pos m.start hpos (by omega)]

/-- `find_within_patterns` equals the full nested match list truncated by
the budget: everything at `count = 0`, the first `count.toNat` matches
otherwise (none for a negative count). -/
theorem find_within_patterns_eq (engine : Engine) (s : List Char) (pattern : String)
    (included : List String) (count : Int) (flags : Nat) :
    find_within_patterns engine s pattern included count flags
      = if count = 0 then withinPatternsAll engine s pattern included flags
        else (withinPatternsAll engine s pattern included flags).take count.toNat := by
  by_cases hc : count = 0
  · subst hc
    rw [if_pos rfl]
    have hmid : ∀ (f : Nat) (ip : String),
        fwpGroups
          (fun found2 inc_match =>
            fwpInner 0 found2
              (engine pattern (slice s inc_match.start inc_match.stop) flags))
          f (engine ip s flags)
          = (f + ((engine ip s flags).flatMap
                (fun om => engine pattern (slice s om.start om.stop) flags)).length,
             (engine ip s flags).flatMap
                (fun om => engine pattern (slice s om.start om.stop) flags)) :=
      fun f ip =>
        fwpGroups_zero _ (fun om => engine pattern (slice s om.start om.stop) flags)
          (fun f2 om => fwpInner_zero (engine pattern (slice s om.start om.stop) flags) f2)
          (engine ip s flags) f
    unfold find_within_patterns withinPatternsAll
    rw [fwpGroups_zero _
      (fun ip => (engine ip s flags).flatMap
        (fun om => engine pattern (slice s om.start om.stop) flags))
      hmid included 0]
  · rw [if_neg hc]
    have hmid : ∀ (f : Nat) (ip : String),
        fwpGroups
          (fun found2 inc_match =>
            fwpInner count found2
              (engine pattern (slice s inc_match.start inc_match.stop) flags))
          f (engine ip s flags)
          = (f + (((engine ip s flags).flatMap
                (fun om => engine pattern (slice s om.start om.stop) flags)).take
                  (count.toNat - f)).length,
             ((engine ip s flags).flatMap
                (fun om => engine pattern (slice s om.start om.stop) flags)).take
                  (count.toNat - f)) :=
      fun f ip =>
        fwpGroups_ne count.toNat _ (fun om => engine pattern (slice s om.start om.stop) flags)
          (fun f2 om => fwpInner_ne count hc (engine pattern (slice s om.start om.stop) flags) f2)
          (engine ip s flags) f
    unfold find_within_patterns withinPatternsAll
    rw [fwpGroups_ne count.toNat _
      (fun ip => (engine ip s flags).flatMap
        (fun om => engine pattern (slice s om.start om.stop) flags))
      hmid included 0]
    simp

/-- C1: for all integers, `_do_ranges_overlap(start1, end1, start2, end2)`
returns true iff `start1 < end2` and `start2 < end1` (strict half-open
intersection); in particular overlap(1,5,4,6) is true, overlap(1,3,4,6) is
false, overlap(4,6,6,10) is false (touching endpoints do not overlap) and
overlap(1,10,5,8) is true (containment). -/
theorem overlap_strict_halfopen (start1 end1 start2 end2 : Int) :
    (_do_ranges_overlap start1 end1 start2 end2 = true ↔ start1 < end2 ∧ start2 < end1)
    ∧ _do_ranges_overlap 1 5 4 6 = true
    ∧ _do_ranges_overlap 1 3 4 6 = false
    ∧ _do_ranges_overlap 4 6 6 10 = false
    ∧ _do_ranges_overlap 1 10 5 8 = true := by
  refine ⟨?_, by decide, by decide, by decide, by decide⟩
  simp only [_do_ranges_overlap, Bool.and_eq_true, decide_eq_true_eq]
  omega

/-- C3 counterexample: the degenerate range (5,5) does overlap (0,10)
according to the code, refuting "zero-length ranges never overlap
anything" at this concrete input. -/
theorem degenerate_overlap_counterexample :
    ¬ (_do_ranges_overlap 5 5 0 10 = false) := by decide

/-- C3 amended: a degenerate range (start = end = p) overlaps another range
iff its position p lies strictly inside the other half-open range, on either
argument side; two degenerate ranges never overlap. -/
theorem degenerate_overlap_amended (p start2 end2 : Int) :
    (_do_ranges_overlap p p start2 end2 = true ↔ start2 < p ∧ p < end2)
    ∧ (_do_ranges_overlap start2 end2 p p = true ↔ start2 < p ∧ p < end2)
    ∧ _do_ranges_overlap p p start2 start2 = false := by
  simp only [_do_ranges_overlap, Bool.and_eq_true, decide_eq_true_eq,
    Bool.and_eq_false_iff, decide_eq_false_iff_not]
  omega

/-- C2: evaluation at the failing input.  `replace_within_ranges` forwards
`count` to `re.sub`, so its first match — skipped because it is outside the
ranges — still consumes the whole budget and the qualifying second match is
left unreplaced; its sibling `replace_with_excluded_ranges` counts only
actual replacements, so on the mirrored input the skipped first match does
not consume the budget and the second is replaced. -/
theorem replace_budget_inconsistency :
    replace_within_ranges demoEngine "foo baz foo".data "foo" "bar".data [(8, 11)] 1 0
      = "foo baz foo".data
    ∧ replace_with_excluded_ranges demoEngine "foo baz foo".data "foo" "bar".data [(0, 4)] 1 0
      = "foo baz bar".data := by
  constructor <;> decide

/-- C6: evaluation at the input of the repository's own
`test_find_with_excluded_ranges` case: the function returns the group-0
strings, and its output is not the image of any match-object list, so it
does not have the output shape of `find_within_ranges`. -/
theorem excluded_ranges_returns_strings :
    find_with_excluded_ranges demoEngine "The quick brown fox jumps over the lazy dog".data
        "\\b\\w\x7b3\x7d\\b" [(0, 10), (20, 40)] 0 0
      = [RVal.strV "fox".data, RVal.strV "dog".data]
    ∧ ¬ ∃ l : List Match,
        find_with_excluded_ranges demoEngine "The quick brown fox jumps over the lazy dog".data
            "\\b\\w\x7b3\x7d\\b" [(0, 10), (20, 40)] 0 0
          = l.map RVal.matchV := by
  have h0 : find_with_excluded_ranges demoEngine
      "The quick brown fox jumps over the lazy dog".data
      "\\b\\w\x7b3\x7d\\b" [(0, 10), (20, 40)] 0 0
      = [RVal.strV "fox".data, RVal.strV "dog".data] := by decide
  refine ⟨h0, ?_⟩
  rintro ⟨l, hl⟩
  rw [h0] at hl
  match l with
  | [] => simp at hl
  | a :: t => simp at hl

/-- C4: with the same ranges and no budget, every engine match is kept by
exactly one of `find_within_ranges` and `find_with_excluded_ranges`
(the latter keeping a match means appending its group-0 text): the two kept
lists partition the full unbounded match set. -/
theorem find_ranges_partition (engine : Engine) (s : List Char) (pattern : String)
    (ranges : List (Int × Int)) (flags : Nat) :
    find_within_ranges engine s pattern ranges 0 flags
      = withinKept (engine pattern s flags) ranges
    ∧ find_with_excluded_ranges engine s pattern ranges 0 flags
      = (excludedKept (engine pattern s flags) ranges).map (fun m => RVal.strV m.text)
    ∧ (∀ m : Match, m ∈ withinKept (engine pattern s flags) ranges
        ↔ m ∈ engine pattern s flags ∧ m ∉ excludedKept (engine pattern s flags) ranges)
    ∧ List.Perm
        (withinKept (engine pattern s flags) ranges
          ++ excludedKept (engine pattern s flags) ranges)
        (engine pattern s flags) := by
  refine ⟨?_, ?_, ?_, ?_⟩
  · unfold find_within_ranges withinKept
    rw [scanBudget_zero]
    simp
  · unfold find_with_excluded_ranges excludedKept
    rw [scanBudget_zero]
  · intro m
    by_cases hp : overlapsAnyR ranges m.start m.stop
    all_goals simp [withinKept, excludedKept, List.mem_filter, hp]
  · exact List.filter_append_perm _ _

/-- C5: for each of the four find operations, a positive limit k returns
exactly min(k, totalQualifyingMatches) matches and the limit 0 returns all
qualifying matches; only kept matches count against the budget. -/
theorem find_budget_min (engine : Engine) (s : List Char) (pattern : String)
    (ranges : List (Int × Int)) (ipats epats : List String) (flags : Nat) (k : Nat) :
    (find_within_ranges engine s pattern ranges ((k : Int) + 1) flags).length
      = min (k + 1) (withinKept (engine pattern s flags) ranges).length
    ∧ (find_with_excluded_ranges engine s pattern ranges ((k : Int) + 1) flags).length
      = min (k + 1) (excludedKept (engine pattern s flags) ranges).length
    ∧ (find_within_patterns engine s pattern ipats ((k : Int) + 1) flags).length
      = min (k + 1) (withinPatternsAll engine s pattern ipats flags).length
    ∧ (find_with_excluded_patterns engine s pattern epats ((k : Int) + 1) flags).length
      = min (k + 1) (excludedPatternsKept engine s pattern epats flags).length
    ∧ (find_within_ranges engine s pattern ranges 0 flags).length
      = (withinKept (engine pattern s flags) ranges).length
    ∧ (find_with_excluded_ranges engine s pattern ranges 0 flags).length
      = (excludedKept (engine pattern s flags) ranges).length
    ∧ (find_within_patterns engine s pattern ipats 0 flags).length
      = (withinPatternsAll engine s pattern ipats flags).length
    ∧ (find_with_excluded_patterns engine s pattern epats 0 flags).length
      = (excludedPatternsKept engine s pattern epats flags).length := by
  have hk1 : ((k : Int) + 1) ≠ 0 := by omega
  have ht : ((k : Int) + 1).toNat = k + 1 := by omega
  refine ⟨?_, ?_, ?_, ?_, ?_, ?_, ?_, ?_⟩
  · unfold find_within_ranges withinKept
    rw [scanBudget_ne _ _ _ hk1, List.length_take, List.length_map, ht, Nat.sub_zero]
  · unfold find_with_excluded_ranges excludedKept
    rw [scanBudget_ne _ _ _ hk1, List.length_take, List.length_map, ht, Nat.sub_zero]
  · rw [find_within_patterns_eq, if_neg hk1, List.length_take, ht]
  · unfold find_with_excluded_patterns excludedPatternsKept
    rw [scanBudget_ne _ _ _ hk1, List.length_take, List.length_map, ht, Nat.sub_zero]
  · unfold find_within_ranges withinKept
    rw [scanBudget_zero, List.length_map]
  · unfold find_with_excluded_ranges excludedKept
    rw [scanBudget_zero, List.length_map]
  · rw [find_within_patterns_eq, if_pos rfl]
  · unfold find_with_excluded_patterns excludedPatternsKept
    rw [scanBudget_zero, List.length_map]

/-- C7: `find_within_patterns` with no budget returns exactly the grouped
nested list — inclusion patterns in list order, their outer matches in
engine order, the target pattern re-run on the substring of each outer span
(offsets relative to the substring); and the concrete scenario
findStringsWithinPatterns('foo bar (foo) [baz]', w+, [parens, brackets])
returns ["foo", "baz"]. -/
theorem within_patterns_grouped :
    (∀ (engine : Engine) (s : List Char) (pattern : String) (ipats : List String)
      (flags : Nat),
      find_within_patterns engine s pattern ipats 0 flags
        = withinPatternsAll engine s pattern ipats flags)
    ∧ find_strings_within_patterns demoEngine "foo bar (foo) [baz]".data "\\w+"
        ["\\(.*?\\)", "\\[.*?\\]"] 0 0 = ["foo".data, "baz".data] := by
  refine ⟨?_, by decide⟩
  intro engine s pattern ipats flags
  rw [find_within_patterns_eq, if_pos rfl]

/-- C8: with no budget, both replace operations return the subject with
exactly the qualifying matches replaced by the replacement text and
everything else — non-qualifying matched spans and the text between
matches — passed through verbatim; in particular
replaceWithinRanges("foo baz foo", "foo", "bar", [(0,4)]) = "bar baz foo". -/
theorem replace_frame (engine : Engine) (s : List Char) (pattern : String)
    (repl : List Char) (ranges : List (Int × Int)) (flags : Nat)
    (hv : validMatches s (engine pattern s flags) = true) :
    replace_within_ranges engine s pattern repl ranges 0 flags
      = replaceQualifying s (engine pattern s flags)
          (fun m => overlapsAnyR ranges m.start m.stop) repl
    ∧ replace_with_excluded_ranges engine s pattern repl ranges 0 flags
      = replaceQualifying s (engine pattern s flags)
          (fun m => !(overlapsAnyR ranges m.start m.stop)) repl
    ∧ replace_within_ranges demoEngine "foo baz foo".data "foo" "bar".data [(0, 4)] 0 0
      = "bar baz foo".data := by
  refine ⟨?_, ?_, by decide⟩
  · unfold replace_within_ranges reSub replaceQualifying
    rw [if_pos rfl]
    exact subRender_eq_replaceQualGo s _ repl _ 0 hv
  · unfold replace_with_excluded_ranges replaceQualifying
    exact subRenderSt_zero_eq s repl ranges _ 0 0 hv

/-- C8 witness: the contract instantiated at the scenario input, every
hypothesis discharged by evaluation. -/
theorem replace_frame_witness :
    replace_within_ranges demoEngine "foo baz foo".data "foo" "bar".data [(0, 4)] 0 0
      = replaceQualifying "foo baz foo".data (demoEngine "foo" "foo baz foo".data 0)
          (fun m => overlapsAnyR [(0, 4)] m.start m.stop) "bar".data
    ∧ replace_with_excluded_ranges demoEngine "foo baz foo".data "foo" "bar".data [(0, 4)] 0 0
      = replaceQualifying "foo baz foo".data (demoEngine "foo" "foo baz foo".data 0)
          (fun m => !(overlapsAnyR [(0, 4)] m.start m.stop)) "bar".data
    ∧ replace_within_ranges demoEngine "foo baz foo".data "foo" "bar".data [(0, 4)] 0 0
      = "bar baz foo".data :=
  replace_frame demoEngine "foo baz foo".data "foo" "bar".data [(0, 4)] 0 (by decide)

/-- C9: an empty selector list yields zero matches under "include" semantics
and every engine match (subject only to the budget) under "exclude"
semantics, for every subject, pattern, budget and flags. -/
theorem empty_selector_semantics (engine : Engine) (s : List Char) (pattern : String)
    (count : Int) (flags : Nat) :
    find_within_ranges engine s pattern [] count flags = []
    ∧ find_within_patterns engine s pattern [] count flags = []
    ∧ find_with_excluded_ranges engine s pattern [] count flags
      = (if count = 0 then engine pattern s flags
         else (engine pattern s flags).take count.toNat).map (fun m => RVal.strV m.text)
    ∧ find_with_excluded_patterns engine s pattern [] count flags
      = (if count = 0 then engine pattern s flags
         else (engine pattern s flags).take count.toNat) := by
  refine ⟨?_, rfl, ?_, ?_⟩
  · unfold find_within_ranges
    by_cases hc : count = 0
    · subst hc; rw [scanBudget_zero]; simp [overlapsAnyR]
    · rw [scanBudget_ne _ _ _ hc]; simp [overlapsAnyR]
  · unfold find_with_excluded_ranges
    by_cases hc : count = 0
    · subst hc; rw [scanBudget_zero, if_pos rfl]; simp [overlapsAnyR]
    · rw [scanBudget_ne _ _ _ hc, if_neg hc]; simp [overlapsAnyR, List.map_take, Nat.sub_zero]
  · unfold find_with_excluded_patterns
    by_cases hc : count = 0
    · subst hc; rw [scanBudget_zero, if_pos rfl]; simp [overlapsAnySpans, excludedSpans]
    · rw [scanBudget_ne _ _ _ hc, if_neg hc]; simp [overlapsAnySpans, excludedSpans, Nat.sub_zero]

/-- C10: a strictly negative count makes every find operation return the
empty list (`found >= count` holds immediately under Python truthiness),
and makes `replace_with_excluded_ranges` return the subject unchanged. -/
theorem negative_count (engine : Engine) (s : List Char) (pattern : String)
    (ranges : List (Int × Int)) (ipats epats : List String) (repl : List Char)
    (flags : Nat) (k : Int) (hk : k < 0)
    (hv : validMatches s (engine pattern s flags) = true) :
    find_within_ranges engine s pattern ranges k flags = []
    ∧ find_with_excluded_ranges engine s pattern ranges k flags = []
    ∧ find_within_patterns engine s pattern ipats k flags = []
    ∧ find_with_excluded_patterns engine s pattern epats k flags = []
    ∧ replace_with_excluded_ranges engine s pattern repl ranges k flags = s := by
  have hk0 : k ≠ 0 := by omega
  have ht : k.toNat = 0 := by omega
  refine ⟨?_, ?_, ?_, ?_, ?_⟩
  · unfold find_within_ranges; rw [scanBudget_ne _ _ _ hk0]; simp [ht]
  · unfold find_with_excluded_ranges; rw [scanBudget_ne _ _ _ hk0]; simp [ht]
  · rw [find_within_patterns_eq, if_neg hk0, ht, List.take_zero]
  · unfold find_with_excluded_patterns; rw [scanBudget_ne _ _ _ hk0]; simp [ht]
  · unfold replace_with_excluded_ranges
    rw [subRenderSt_neg s repl ranges k hk (engine pattern s flags) 0 0 hv, List.drop_zero]

/-- C10 witness: the negative-count behaviour at a concrete input. -/
theorem negative_count_witness :
    find_within_ranges demoEngine "foo baz foo".data "foo" [(0, 4)] (-1) 0 = []
    ∧ find_with_excluded_ranges demoEngine "foo baz foo".data "foo" [(0, 4)] (-1) 0 = []
    ∧ find_within_patterns demoEngine "foo baz foo".data "foo" ["x"] (-1) 0 = []
    ∧ find_with_excluded_patterns demoEngine "foo baz foo".data "foo" ["y"] (-1) 0 = []
    ∧ replace_with_excluded_ranges demoEngine "foo baz foo".data "foo" "bar".data
        [(0, 4)] (-1) 0 = "foo baz foo".data :=
  negative_count demoEngine "foo baz foo".data "foo" [(0, 4)] ["x"] ["y"] "bar".data 0 (-1)
    (by decide) (by decide)

end Regexutils
